import Mathlib

/-!
Verification of the curl-trace plotting tools (`plot.py` and `run_traces.py`).

The embedding models:
* the two line regexes (`ts_rx`/`ANY_TS` and `data_rx`/`RECV_DATA`) as
  deterministic matchers over `List Char`;
* `datetime.strptime` with format `%H:%M:%S.%f` as a validity check on the
  captured time-of-day fields;
* the single-trace parse loop of `plot.py` (with its implicit `(0, 0)` sample
  and its 12 MiB early-stop `break`) and the `parse_log` loop of
  `run_traces.py` (no implicit sample, no early stop);
* the `run_trace` / `main` orchestration of `run_traces.py`, with the external
  collector abstracted as an exit-status function;
* UTF-8 decoding, strict (`encoding='utf-8'`) versus lenient
  (`errors='ignore'`).

Elapsed times are represented exactly, in integer microseconds, matching
`(ts - t0).total_seconds()` up to the fixed 10^6 scale factor.
-/

/-- A captured wall-clock time of day: the four digit groups of the pattern
`\d{2}:\d{2}:\d{2}\.\d{6}` (hours, minutes, seconds, microseconds). -/
structure TOD where
  h : Nat
  m : Nat
  s : Nat
  us : Nat
deriving Repr, DecidableEq

/-- Numeric value of a decimal digit character. -/
def digitVal (c : Char) : Nat := c.toNat - 48

/-- Read exactly `n` decimal digits, accumulating their value. -/
def readDigitsAux : Nat → Nat → List Char → Option (Nat × List Char)
  | 0, acc, cs => some (acc, cs)
  | n + 1, acc, c :: cs =>
      if c.isDigit then readDigitsAux n (acc * 10 + digitVal c) cs else none
  | _ + 1, _, [] => none

/-- Read exactly `n` decimal digits from the front of `cs`. -/
def readDigits (n : Nat) (cs : List Char) : Option (Nat × List Char) :=
  readDigitsAux n 0 cs

/-- Consume one expected character. -/
def expectChar (c : Char) : List Char → Option (List Char)
  | d :: cs => if d = c then some cs else none
  | [] => none

/-- Consume an expected literal character sequence. -/
def expectStr : List Char → List Char → Option (List Char)
  | [], cs => some cs
  | p :: ps, c :: cs => if c = p then expectStr ps cs else none
  | _ :: _, [] => none

/-- ASCII whitespace, the fragment of the regex class `\s` that can occur in
these logs. -/
def isSpaceChar (c : Char) : Bool :=
  c = ' ' || c = '\t' || c = '\n' || c = '\r' || c = '\x0b' || c = '\x0c'

/-- Consume one or more whitespace characters (`\s+`, greedy). -/
def skipSpaces1 : List Char → Option (List Char)
  | c :: cs => if isSpaceChar c then some (cs.dropWhile isSpaceChar) else none
  | [] => none

/-- Read one or more decimal digits (`\d+`, greedy) as a natural number. -/
def readNat1 (cs : List Char) : Option (Nat × List Char) :=
  match cs with
  | c :: _ =>
      if c.isDigit then
        some ((cs.takeWhile Char.isDigit).foldl (fun a d => a * 10 + digitVal d)
          0, cs.dropWhile Char.isDigit)
      else none
  | [] => none

/-- The anchor regex `ts_rx` / `ANY_TS`:
`^(?P<ts>\d{2}:\d{2}:\d{2}\.\d{6})` anchored at the start of the line.
Returns the captured time fields and the remaining characters. -/
def matchTS (cs : List Char) : Option (TOD × List Char) := do
  let (hh, cs) ← readDigits 2 cs
  let cs ← expectChar ':' cs
  let (mm, cs) ← readDigits 2 cs
  let cs ← expectChar ':' cs
  let (ss, cs) ← readDigits 2 cs
  let cs ← expectChar '.' cs
  let (us, cs) ← readDigits 6 cs
  some (⟨hh, mm, ss, us⟩, cs)

/-- The part of the data regex after the timestamp capture:
`\s+<=\s+Recv data,\s+(?P<bytes>\d+)\s+bytes`.  Returns the byte count. -/
def matchDataRest (cs : List Char) : Option Nat := do
  let cs ← skipSpaces1 cs
  let cs ← expectStr "<=".toList cs
  let cs ← skipSpaces1 cs
  let cs ← expectStr "Recv data,".toList cs
  let cs ← skipSpaces1 cs
  let (b, cs) ← readNat1 cs
  let cs ← skipSpaces1 cs
  let _ ← expectStr "bytes".toList cs
  some b

/-- The data regex `data_rx` / `RECV_DATA`:
`^(?P<ts>\d{2}:\d{2}:\d{2}\.\d{6})\s+<=\s+Recv data,\s+(?P<bytes>\d+)\s+bytes`.
Returns the captured time fields and the byte count. -/
def matchData (cs : List Char) : Option (TOD × Nat) :=
  match matchTS cs with
  | some (t, r) => (matchDataRest r).map (fun b => (t, b))
  | none => none

/-- Errors a parse can raise: `strptime` is a `ValueError` from
`datetime.strptime`, `noneSub` is the `TypeError` from subtracting a `None`
anchor, `decode` is a `UnicodeDecodeError` from strict decoding. -/
inductive Err
  | strptime
  | noneSub
  | decode
deriving Repr, DecidableEq

/-- Model of `datetime.strptime(ts, "%H:%M:%S.%f")`: the digit groups parse
into a `datetime` only when they denote a valid time of day; otherwise a
`ValueError` is raised. -/
def strptimeHMS (t : TOD) : Except Err TOD :=
  if t.h ≤ 23 && t.m ≤ 59 && t.s ≤ 59 then .ok t else .error .strptime

/-- Microseconds since midnight; differences of these values are exactly
`total_seconds()` scaled by 10^6. -/
def TOD.toUs (t : TOD) : Int :=
  ((t.h * 60 + t.m) * 60 + t.s) * 1000000 + t.us

/-- The early-stop threshold of `plot.py`: `12 * 1024 * 1024` bytes. -/
def THRESHOLD : Nat := 12 * 1024 * 1024

/-- Loop state of the single-trace parser in `plot.py`: the `times` and
`totals` lists, the optional anchor `t0`, and the running `total_bytes`. -/
structure PlotState where
  times : List Int := []
  totals : List Nat := []
  t0 : Option TOD := none
  total_bytes : Nat := 0
deriving Repr, DecidableEq

/-- The anchor step of the `plot.py` loop body (lines 29-34): when `t0` is
still unset and the line starts with a timestamp, parse it, record it as the
anchor and append the implicit `(0, 0)` sample. -/
def plotAnchor (st : PlotState) (line : List Char) : Except Err PlotState :=
  if st.t0.isNone then
    match matchTS line with
    | some (traw, _) =>
        match strptimeHMS traw with
        | .error e => .error e
        | .ok t => .ok { st with t0 := some t, times := st.times ++ [0],
                                 totals := st.totals ++ [0] }
    | none => .ok st
  else .ok st

/-- The data step of the `plot.py` loop body (lines 36-48): process a
`Recv data` line, appending a sample and signalling `break` (second component
`false`) once the cumulative total exceeds the 12 MiB threshold. -/
def plotData (st : PlotState) (line : List Char) : Except Err (PlotState × Bool) :=
  match matchData line with
  | none => .ok (st, true)
  | some (traw, b) =>
      match strptimeHMS traw with
      | .error e => .error e
      | .ok ts =>
          match st.t0 with
          | none => .error .noneSub
          | some t0 =>
              let tb := st.total_bytes + b
              .ok ({ st with total_bytes := tb,
                             times := st.times ++ [ts.toUs - t0.toUs],
                             totals := st.totals ++ [tb] },
                   decide (tb ≤ THRESHOLD))

/-- One iteration of the `plot.py` loop body on a single line: anchor step,
then data step.  Returns the new state and `true` when the loop continues
(`false` after the 12 MiB `break`). -/
def plotLine (st : PlotState) (line : List Char) : Except Err (PlotState × Bool) :=
  match plotAnchor st line with
  | .error e => .error e
  | .ok st => plotData st line

/-- The `plot.py` line loop over a list of lines, also reporting whether the
loop ran to completion (`true`) or ended in a `break` (`false`). -/
def plotRunB : PlotState → List (List Char) → Except Err (PlotState × Bool)
  | st, [] => .ok (st, true)
  | st, l :: ls =>
      match plotLine st l with
      | .error e => .error e
      | .ok (st1, cont) => if cont then plotRunB st1 ls else .ok (st1, false)

/-- The whole single-trace parse of `plot.py`, from the initial state. -/
def runPlot (lines : List (List Char)) : Except Err PlotState :=
  (plotRunB {} lines).map Prod.fst

/-- Loop state of `parse_log` in `run_traces.py`. -/
structure LogState where
  times : List Int := []
  totals : List Nat := []
  t0 : Option TOD := none
  cum : Nat := 0
deriving Repr, DecidableEq

/-- The anchor step of the `parse_log` loop body (lines 70-74): when `t0` is
still unset and the line starts with a timestamp, parse it and record it as
the anchor.  Unlike `plot.py`, no `(0, 0)` sample is appended. -/
def parseAnchor (st : LogState) (line : List Char) : Except Err LogState :=
  if st.t0.isNone then
    match matchTS line with
    | some (traw, _) =>
        match strptimeHMS traw with
        | .error e => .error e
        | .ok t => .ok { st with t0 := some t }
    | none => .ok st
  else .ok st

/-- The data step of the `parse_log` loop body (lines 75-81): process a
`Recv data` line, appending a sample.  There is no early-stop threshold. -/
def parseData (st : LogState) (line : List Char) : Except Err LogState :=
  match matchData line with
  | none => .ok st
  | some (traw, b) =>
      match strptimeHMS traw with
      | .error e => .error e
      | .ok ts =>
          match st.t0 with
          | none => .error .noneSub
          | some t0 =>
              let cum := st.cum + b
              .ok { st with cum := cum,
                            times := st.times ++ [ts.toUs - t0.toUs],
                            totals := st.totals ++ [cum] }

/-- One iteration of the `parse_log` loop body on a single line: anchor step,
then data step. -/
def parseLine (st : LogState) (line : List Char) : Except Err LogState :=
  match parseAnchor st line with
  | .error e => .error e
  | .ok st => parseData st line

/-- The `parse_log` loop over a list of lines. -/
def parseRun : LogState → List (List Char) → Except Err LogState
  | st, [] => .ok st
  | st, l :: ls =>
      match parseLine st l with
      | .error e => .error e
      | .ok st1 => parseRun st1 ls

/-- The whole `parse_log` parse, from the initial state. -/
def parseLog (lines : List (List Char)) : Except Err LogState :=
  parseRun {} lines

/-- Byte counts contributed by one line: the captured count when the line is
a data-receipt line, nothing otherwise. -/
def lineBytes (l : List Char) : List Nat :=
  match matchData l with
  | some (_, b) => [b]
  | none => []

/-- The byte counts of all data-receipt lines, in file order. -/
def dataBytesList (lines : List (List Char)) : List Nat :=
  lines.foldr (fun l acc => lineBytes l ++ acc) []

/-- Elapsed microseconds contributed by one line relative to anchor `t0`. -/
def lineTimes (t0 : TOD) (l : List Char) : List Int :=
  match matchData l with
  | some (t, _) => [t.toUs - t0.toUs]
  | none => []

/-- The elapsed values of all data-receipt lines relative to `t0`. -/
def dataTimesFrom (t0 : TOD) (lines : List (List Char)) : List Int :=
  lines.foldr (fun l acc => lineTimes t0 l ++ acc) []

/-- Number of data-receipt lines. -/
def countData (lines : List (List Char)) : Nat :=
  lines.countP (fun l => (matchData l).isSome)

/-- Whether some line matches the anchor pattern. -/
def anyTS (lines : List (List Char)) : Bool :=
  lines.any (fun l => (matchTS l).isSome)

/-- Sum of all data-receipt byte counts. -/
def sumBytes (lines : List (List Char)) : Nat :=
  (dataBytesList lines).sum

/-- The captured time fields of a line, where matched, denote a valid time
of day (so `strptime` succeeds on them). -/
def validTSb (l : List Char) : Bool :=
  match matchTS l with
  | some (t, _) => t.h ≤ 23 && t.m ≤ 59 && t.s ≤ 59
  | none => true

/-- The running cumulative sums: `runningSums [b1, b2, ...] a = [a+b1, a+b1+b2, ...]`. -/
def runningSums : List Nat → Nat → List Nat
  | [], _ => []
  | b :: bs, acc => (acc + b) :: runningSums bs (acc + b)

/-! ### Basic lemmas about the matchers -/

theorem matchData_noTS {l : List Char} (h : matchTS l = none) :
    matchData l = none := by
  simp [matchData, h]

theorem matchData_ts {l : List Char} {t : TOD} {b : Nat}
    (h : matchData l = some (t, b)) : ∃ r, matchTS l = some (t, r) := by
  cases hts : matchTS l with
  | none => rw [matchData_noTS hts] at h; exact absurd h (by simp)
  | some p =>
      obtain ⟨t', r⟩ := p
      simp only [matchData, hts, Option.map_eq_some'] at h
      obtain ⟨b', hr, heq⟩ := h
      injection heq with h1 h2
      subst h1
      exact ⟨r, rfl⟩

/-! ### Characterization of the `parse_log` steps -/

theorem parseAnchor_some {st : LogState} {t0v : TOD} {l : List Char}
    (h0 : st.t0 = some t0v) : parseAnchor st l = .ok st := by
  simp [parseAnchor, h0]

theorem parseAnchor_none_noTS {st : LogState} {l : List Char}
    (h0 : st.t0 = none) (h : matchTS l = none) : parseAnchor st l = .ok st := by
  simp [parseAnchor, h0, h]

theorem parseAnchor_none_ts {st : LogState} {l : List Char} {t : TOD}
    {r : List Char} (h0 : st.t0 = none) (hts : matchTS l = some (t, r))
    (hv : (t.h ≤ 23 && t.m ≤ 59 && t.s ≤ 59) = true) :
    parseAnchor st l = .ok { st with t0 := some t } := by
  simp [parseAnchor, h0, hts, strptimeHMS, hv]

theorem parseAnchor_none_ts_bad {st : LogState} {l : List Char} {t : TOD}
    {r : List Char} (h0 : st.t0 = none) (hts : matchTS l = some (t, r))
    (hv : (t.h ≤ 23 && t.m ≤ 59 && t.s ≤ 59) = false) :
    parseAnchor st l = .error .strptime := by
  simp [parseAnchor, h0, hts, strptimeHMS, hv]

theorem parseData_noData {st : LogState} {l : List Char}
    (hd : matchData l = none) : parseData st l = .ok st := by
  simp [parseData, hd]

theorem parseData_data {st : LogState} {t0v : TOD} {l : List Char} {t : TOD}
    {b : Nat} (h0 : st.t0 = some t0v) (hd : matchData l = some (t, b))
    (hv : (t.h ≤ 23 && t.m ≤ 59 && t.s ≤ 59) = true) :
    parseData st l = .ok { times := st.times ++ [t.toUs - t0v.toUs],
                           totals := st.totals ++ [st.cum + b],
                           t0 := some t0v, cum := st.cum + b } := by
  simp [parseData, hd, strptimeHMS, hv, h0]

theorem parseData_data_bad {st : LogState} {l : List Char} {t : TOD}
    {b : Nat} (hd : matchData l = some (t, b))
    (hv : (t.h ≤ 23 && t.m ≤ 59 && t.s ≤ 59) = false) :
    parseData st l = .error .strptime := by
  simp [parseData, hd, strptimeHMS, hv]

theorem parseLine_noTS {st : LogState} {l : List Char}
    (h : matchTS l = none) : parseLine st l = .ok st := by
  cases h0 : st.t0 with
  | none =>
      simp only [parseLine, parseAnchor_none_noTS h0 h,
        parseData_noData (matchData_noTS h)]
  | some t =>
      simp only [parseLine, parseAnchor_some h0,
        parseData_noData (matchData_noTS h)]

theorem parseLine_some_noData {st : LogState} {t0v : TOD} {l : List Char}
    (h0 : st.t0 = some t0v) (hd : matchData l = none) :
    parseLine st l = .ok st := by
  simp only [parseLine, parseAnchor_some h0, parseData_noData hd]

theorem parseLine_some_data {st : LogState} {t0v : TOD} {l : List Char}
    {t : TOD} {b : Nat}
    (h0 : st.t0 = some t0v) (hd : matchData l = some (t, b))
    (hv : (t.h ≤ 23 && t.m ≤ 59 && t.s ≤ 59) = true) :
    parseLine st l = .ok { times := st.times ++ [t.toUs - t0v.toUs],
                           totals := st.totals ++ [st.cum + b],
                           t0 := some t0v, cum := st.cum + b } := by
  simp only [parseLine, parseAnchor_some h0, parseData_data h0 hd hv]

theorem parseLine_none_ts {st : LogState} {l : List Char} {t : TOD}
    {r : List Char}
    (h0 : st.t0 = none) (hts : matchTS l = some (t, r))
    (hv : (t.h ≤ 23 && t.m ≤ 59 && t.s ≤ 59) = true) :
    parseLine st l = parseData { st with t0 := some t } l := by
  simp only [parseLine, parseAnchor_none_ts h0 hts hv]

theorem parseLine_none_ts_bad {st : LogState} {l : List Char} {t : TOD}
    {r : List Char}
    (h0 : st.t0 = none) (hts : matchTS l = some (t, r))
    (hv : (t.h ≤ 23 && t.m ≤ 59 && t.s ≤ 59) = false) :
    parseLine st l = .error .strptime := by
  simp only [parseLine, parseAnchor_none_ts_bad h0 hts hv]

/-! ### Characterization of the `plot.py` steps -/

theorem plotAnchor_some {st : PlotState} {t0v : TOD} {l : List Char}
    (h0 : st.t0 = some t0v) : plotAnchor st l = .ok st := by
  simp [plotAnchor, h0]

theorem plotAnchor_none_noTS {st : PlotState} {l : List Char}
    (h0 : st.t0 = none) (h : matchTS l = none) : plotAnchor st l = .ok st := by
  simp [plotAnchor, h0, h]

theorem plotAnchor_none_ts {st : PlotState} {l : List Char} {t : TOD}
    {r : List Char} (h0 : st.t0 = none) (hts : matchTS l = some (t, r))
    (hv : (t.h ≤ 23 && t.m ≤ 59 && t.s ≤ 59) = true) :
    plotAnchor st l = .ok { st with t0 := some t, times := st.times ++ [0],
                                    totals := st.totals ++ [0] } := by
  simp [plotAnchor, h0, hts, strptimeHMS, hv]

theorem plotAnchor_none_ts_bad {st : PlotState} {l : List Char} {t : TOD}
    {r : List Char} (h0 : st.t0 = none) (hts : matchTS l = some (t, r))
    (hv : (t.h ≤ 23 && t.m ≤ 59 && t.s ≤ 59) = false) :
    plotAnchor st l = .error .strptime := by
  simp [plotAnchor, h0, hts, strptimeHMS, hv]

theorem plotData_noData {st : PlotState} {l : List Char}
    (hd : matchData l = none) : plotData st l = .ok (st, true) := by
  simp [plotData, hd]

theorem plotData_data {st : PlotState} {t0v : TOD} {l : List Char} {t : TOD}
    {b : Nat} (h0 : st.t0 = some t0v) (hd : matchData l = some (t, b))
    (hv : (t.h ≤ 23 && t.m ≤ 59 && t.s ≤ 59) = true) :
    plotData st l = .ok ({ times := st.times ++ [t.toUs - t0v.toUs],
                           totals := st.totals ++ [st.total_bytes + b],
                           t0 := some t0v, total_bytes := st.total_bytes + b },
                         decide (st.total_bytes + b ≤ THRESHOLD)) := by
  simp only [plotData, hd, strptimeHMS, hv, if_true, h0]

theorem plotData_data_bad {st : PlotState} {l : List Char} {t : TOD}
    {b : Nat} (hd : matchData l = some (t, b))
    (hv : (t.h ≤ 23 && t.m ≤ 59 && t.s ≤ 59) = false) :
    plotData st l = .error .strptime := by
  simp [plotData, hd, strptimeHMS, hv]

theorem plotLine_noTS {st : PlotState} {l : List Char}
    (h : matchTS l = none) : plotLine st l = .ok (st, true) := by
  cases h0 : st.t0 with
  | none =>
      simp only [plotLine, plotAnchor_none_noTS h0 h,
        plotData_noData (matchData_noTS h)]
  | some t =>
      simp only [plotLine, plotAnchor_some h0,
        plotData_noData (matchData_noTS h)]

theorem plotLine_some_noData {st : PlotState} {t0v : TOD} {l : List Char}
    (h0 : st.t0 = some t0v) (hd : matchData l = none) :
    plotLine st l = .ok (st, true) := by
  simp only [plotLine, plotAnchor_some h0, plotData_noData hd]

theorem plotLine_some_data {st : PlotState} {t0v : TOD} {l : List Char}
    {t : TOD} {b : Nat}
    (h0 : st.t0 = some t0v) (hd : matchData l = some (t, b))
    (hv : (t.h ≤ 23 && t.m ≤ 59 && t.s ≤ 59) = true) :
    plotLine st l = .ok ({ times := st.times ++ [t.toUs - t0v.toUs],
                           totals := st.totals ++ [st.total_bytes + b],
                           t0 := some t0v, total_bytes := st.total_bytes + b },
                         decide (st.total_bytes + b ≤ THRESHOLD)) := by
  simp only [plotLine, plotAnchor_some h0, plotData_data h0 hd hv]

theorem plotLine_none_ts {st : PlotState} {l : List Char} {t : TOD}
    {r : List Char}
    (h0 : st.t0 = none) (hts : matchTS l = some (t, r))
    (hv : (t.h ≤ 23 && t.m ≤ 59 && t.s ≤ 59) = true) :
    plotLine st l = plotData { st with t0 := some t, times := st.times ++ [0],
                                       totals := st.totals ++ [0] } l := by
  simp only [plotLine, plotAnchor_none_ts h0 hts hv]

theorem plotLine_none_ts_bad {st : PlotState} {l : List Char} {t : TOD}
    {r : List Char}
    (h0 : st.t0 = none) (hts : matchTS l = some (t, r))
    (hv : (t.h ≤ 23 && t.m ≤ 59 && t.s ≤ 59) = false) :
    plotLine st l = .error .strptime := by
  simp only [plotLine, plotAnchor_none_ts_bad h0 hts hv]

/-! ### List-level helpers -/

theorem dataBytesList_nil : dataBytesList [] = [] := rfl

theorem dataBytesList_cons (l : List Char) (ls : List (List Char)) :
    dataBytesList (l :: ls) = lineBytes l ++ dataBytesList ls := rfl

theorem dataTimesFrom_nil (t0 : TOD) : dataTimesFrom t0 [] = [] := rfl

theorem dataTimesFrom_cons (t0 : TOD) (l : List Char) (ls : List (List Char)) :
    dataTimesFrom t0 (l :: ls) = lineTimes t0 l ++ dataTimesFrom t0 ls := rfl

theorem countData_eq_length (lines : List (List Char)) :
    countData lines = (dataBytesList lines).length := by
  induction lines with
  | nil => rfl
  | cons l ls ih =>
      simp only [countData, List.countP_cons, dataBytesList_cons,
        List.length_append] at ih ⊢
      cases hd : matchData l <;> simp [lineBytes, hd, ih, Nat.add_comm]

theorem runningSums_append (xs ys : List Nat) :
    ∀ acc, runningSums (xs ++ ys) acc =
      runningSums xs acc ++ runningSums ys (acc + xs.sum) := by
  induction xs with
  | nil => intro acc; simp [runningSums]
  | cons x xs ih =>
      intro acc
      simp only [List.cons_append, runningSums, List.sum_cons,
        List.append_eq]
      rw [ih (acc + x), Nat.add_assoc]

theorem runningSums_length (xs : List Nat) :
    ∀ acc, (runningSums xs acc).length = xs.length := by
  induction xs with
  | nil => intro acc; rfl
  | cons x xs ih => intro acc; simp [runningSums, ih]

theorem runningSums_chain (xs : List Nat) :
    ∀ acc, List.Chain' (· ≤ ·) (acc :: runningSums xs acc) := by
  induction xs with
  | nil => intro acc; simp [runningSums]
  | cons x xs ih =>
      intro acc
      simp only [runningSums]
      exact List.Chain'.cons (Nat.le_add_right acc x) (ih (acc + x))

/-! ### Run-level lemmas for `parse_log` -/

theorem parseRun_append (xs ys : List (List Char)) :
    ∀ st, parseRun st (xs ++ ys) =
      match parseRun st xs with
      | .error e => .error e
      | .ok st1 => parseRun st1 ys := by
  induction xs with
  | nil => intro st; rfl
  | cons l ls ih =>
      intro st
      simp only [List.cons_append, parseRun]
      cases parseLine st l with
      | error e => rfl
      | ok st1 => exact ih st1

theorem parseRun_anchored (lines : List (List Char)) :
    ∀ (st : LogState) (t0v : TOD), st.t0 = some t0v →
      (∀ l ∈ lines, validTSb l = true) →
      parseRun st lines =
        .ok { times := st.times ++ dataTimesFrom t0v lines,
              totals := st.totals ++ runningSums (dataBytesList lines) st.cum,
              t0 := some t0v,
              cum := st.cum + (dataBytesList lines).sum } := by
  induction lines with
  | nil =>
      intro st t0v h0 _
      obtain ⟨ts, tot, tz, c⟩ := st
      subst h0
      simp [parseRun, dataTimesFrom_nil, dataBytesList_nil, runningSums]
  | cons l ls ih =>
      intro st t0v h0 hv
      have hvl : validTSb l = true := hv l (List.mem_cons_self l ls)
      have hvs : ∀ l' ∈ ls, validTSb l' = true :=
        fun l' hm => hv l' (List.mem_cons_of_mem l hm)
      cases hd : matchData l with
      | none =>
          simp only [parseRun, parseLine_some_noData h0 hd]
          rw [ih st t0v h0 hvs]
          simp [dataTimesFrom_cons, dataBytesList_cons, lineBytes, lineTimes, hd]
      | some p =>
          obtain ⟨t, b⟩ := p
          obtain ⟨r, hts⟩ := matchData_ts hd
          rw [validTSb, hts] at hvl
          simp only [parseRun, parseLine_some_data h0 hd hvl]
          rw [ih _ t0v rfl hvs]
          simp only [dataTimesFrom_cons, dataBytesList_cons, lineBytes,
            lineTimes, hd, List.sum_cons, runningSums]
          rw [List.append_assoc, List.append_assoc]
          simp [runningSums, Nat.add_assoc]

theorem parseLine_some_data_bad {st : LogState} {t0v : TOD} {l : List Char}
    {t : TOD} {b : Nat}
    (h0 : st.t0 = some t0v) (hd : matchData l = some (t, b))
    (hv : (t.h ≤ 23 && t.m ≤ 59 && t.s ≤ 59) = false) :
    parseLine st l = .error .strptime := by
  simp only [parseLine, parseAnchor_some h0, parseData_data_bad hd hv]

theorem matchData_ts_eq {l : List Char} {t t2 : TOD} {r : List Char} {b : Nat}
    (hts : matchTS l = some (t, r)) (hd : matchData l = some (t2, b)) :
    t2 = t ∧ matchDataRest r = some b := by
  simp only [matchData, hts, Option.map_eq_some'] at hd
  obtain ⟨b', hr, heq⟩ := hd
  injection heq with h1 h2
  subst h1; subst h2
  exact ⟨rfl, hr⟩

theorem parseRun_noTS (lines : List (List Char)) :
    ∀ st, (∀ l ∈ lines, matchTS l = none) → parseRun st lines = .ok st := by
  induction lines with
  | nil => intro st _; rfl
  | cons l ls ih =>
      intro st h
      simp only [parseRun, parseLine_noTS (h l (List.mem_cons_self l ls))]
      exact ih st (fun l' hm => h l' (List.mem_cons_of_mem l hm))

theorem parseLine_ok_totals {st st' : LogState} {l : List Char}
    (h : parseLine st l = .ok st') :
    st'.totals = st.totals ++ runningSums (lineBytes l) st.cum ∧
    st'.cum = st.cum + (lineBytes l).sum := by
  cases h0 : st.t0 with
  | some t0v =>
      cases hd : matchData l with
      | none =>
          rw [parseLine_some_noData h0 hd] at h
          injection h with h; subst h
          simp [lineBytes, hd, runningSums]
      | some p =>
          obtain ⟨t, b⟩ := p
          cases hv : (t.h ≤ 23 && t.m ≤ 59 && t.s ≤ 59) with
          | false =>
              rw [parseLine_some_data_bad h0 hd hv] at h
              exact absurd h (by simp)
          | true =>
              rw [parseLine_some_data h0 hd hv] at h
              injection h with h; subst h
              simp [lineBytes, hd, runningSums]
  | none =>
      cases hts : matchTS l with
      | none =>
          rw [parseLine_noTS hts] at h
          injection h with h; subst h
          simp [lineBytes, matchData_noTS hts, runningSums]
      | some p =>
          obtain ⟨t, r⟩ := p
          cases hv : (t.h ≤ 23 && t.m ≤ 59 && t.s ≤ 59) with
          | false =>
              rw [parseLine_none_ts_bad h0 hts hv] at h
              exact absurd h (by simp)
          | true =>
              rw [parseLine_none_ts h0 hts hv] at h
              cases hd : matchData l with
              | none =>
                  rw [parseData_noData hd] at h
                  injection h with h; subst h
                  simp [lineBytes, hd, runningSums]
              | some p2 =>
                  obtain ⟨t2, b⟩ := p2
                  obtain ⟨ht2, _⟩ := matchData_ts_eq hts hd
                  subst ht2
                  rw [parseData_data rfl hd hv] at h
                  injection h with h; subst h
                  simp [lineBytes, hd, runningSums]

theorem parseLine_ok_t0 {st st' : LogState} {l : List Char}
    (h : parseLine st l = .ok st') :
    (∀ t0v, st.t0 = some t0v →
        st'.t0 = some t0v ∧ st'.times = st.times ++ lineTimes t0v l) ∧
    (st'.t0 = none → st' = st) := by
  cases h0 : st.t0 with
  | some t0v =>
      cases hd : matchData l with
      | none =>
          rw [parseLine_some_noData h0 hd] at h
          injection h with h; subst h
          constructor
          · intro t0v' h0'
            injection h0' with h0'; subst h0'
            simp [lineTimes, hd, h0]
          · intro hn; rfl
      | some p =>
          obtain ⟨t, b⟩ := p
          cases hv : (t.h ≤ 23 && t.m ≤ 59 && t.s ≤ 59) with
          | false =>
              rw [parseLine_some_data_bad h0 hd hv] at h
              exact absurd h (by simp)
          | true =>
              rw [parseLine_some_data h0 hd hv] at h
              injection h with h; subst h
              constructor
              · intro t0v' h0'
                injection h0' with h0'; subst h0'
                simp [lineTimes, hd]
              · intro hn; exact absurd hn (by simp)
  | none =>
      cases hts : matchTS l with
      | none =>
          rw [parseLine_noTS hts] at h
          injection h with h; subst h
          exact ⟨fun t0v h0' => absurd h0' (by simp [h0]), fun _ => rfl⟩
      | some p =>
          obtain ⟨t, r⟩ := p
          cases hv : (t.h ≤ 23 && t.m ≤ 59 && t.s ≤ 59) with
          | false =>
              rw [parseLine_none_ts_bad h0 hts hv] at h
              exact absurd h (by simp)
          | true =>
              rw [parseLine_none_ts h0 hts hv] at h
              cases hd : matchData l with
              | none =>
                  rw [parseData_noData hd] at h
                  injection h with h; subst h
                  constructor
                  · intro t0v h0'; exact absurd h0' (by simp [h0])
                  · intro hn; exact absurd hn (by simp)
              | some p2 =>
                  obtain ⟨t2, b⟩ := p2
                  obtain ⟨ht2, _⟩ := matchData_ts_eq hts hd
                  subst ht2
                  rw [parseData_data rfl hd hv] at h
                  injection h with h; subst h
                  constructor
                  · intro t0v h0'; exact absurd h0' (by simp [h0])
                  · intro hn; exact absurd hn (by simp)

theorem parseLine_ne_noneSub (st : LogState) (l : List Char) :
    parseLine st l ≠ .error .noneSub := by
  cases h0 : st.t0 with
  | some t0v =>
      cases hd : matchData l with
      | none => rw [parseLine_some_noData h0 hd]; simp
      | some p =>
          obtain ⟨t, b⟩ := p
          cases hv : (t.h ≤ 23 && t.m ≤ 59 && t.s ≤ 59) with
          | false => rw [parseLine_some_data_bad h0 hd hv]; simp
          | true => rw [parseLine_some_data h0 hd hv]; simp
  | none =>
      cases hts : matchTS l with
      | none => rw [parseLine_noTS hts]; simp
      | some p =>
          obtain ⟨t, r⟩ := p
          cases hv : (t.h ≤ 23 && t.m ≤ 59 && t.s ≤ 59) with
          | false => rw [parseLine_none_ts_bad h0 hts hv]; simp
          | true =>
              rw [parseLine_none_ts h0 hts hv]
              cases hd : matchData l with
              | none => rw [parseData_noData hd]; simp
              | some p2 =>
                  obtain ⟨t2, b⟩ := p2
                  obtain ⟨ht2, _⟩ := matchData_ts_eq hts hd
                  subst ht2
                  rw [parseData_data rfl hd hv]; simp

theorem parseRun_ok_totals (lines : List (List Char)) :
    ∀ st st', parseRun st lines = .ok st' →
      st'.totals = st.totals ++ runningSums (dataBytesList lines) st.cum ∧
      st'.cum = st.cum + (dataBytesList lines).sum := by
  induction lines with
  | nil =>
      intro st st' h
      injection h with h; subst h
      simp [dataBytesList_nil, runningSums]
  | cons l ls ih =>
      intro st st' h
      rw [parseRun] at h
      cases hpl : parseLine st l with
      | error e => rw [hpl] at h; exact absurd h (by simp)
      | ok st1 =>
          rw [hpl] at h
          obtain ⟨ht1, hc1⟩ := parseLine_ok_totals hpl
          obtain ⟨ht2, hc2⟩ := ih st1 st' h
          constructor
          · rw [ht2, ht1, hc1, dataBytesList_cons, runningSums_append,
              List.append_assoc]
          · rw [hc2, hc1, dataBytesList_cons, List.sum_append, Nat.add_assoc]

theorem parseRun_ok_t0 (lines : List (List Char)) :
    ∀ st st', parseRun st lines = .ok st' →
      (∀ t0v, st.t0 = some t0v →
          st'.t0 = some t0v ∧ st'.times = st.times ++ dataTimesFrom t0v lines) ∧
      (st'.t0 = none → st' = st) := by
  induction lines with
  | nil =>
      intro st st' h
      injection h with h; subst h
      exact ⟨fun t0v h0 => ⟨h0, by simp [dataTimesFrom_nil]⟩, fun _ => rfl⟩
  | cons l ls ih =>
      intro st st' h
      rw [parseRun] at h
      cases hpl : parseLine st l with
      | error e => rw [hpl] at h; exact absurd h (by simp)
      | ok st1 =>
          rw [hpl] at h
          obtain ⟨hline, hnone⟩ := parseLine_ok_t0 hpl
          obtain ⟨hrun, hrnone⟩ := ih st1 st' h
          constructor
          · intro t0v h0
            obtain ⟨h1, h2⟩ := hline t0v h0
            obtain ⟨h3, h4⟩ := hrun t0v h1
            refine ⟨h3, ?_⟩
            rw [h4, h2, dataTimesFrom_cons, List.append_assoc]
          · intro hfin
            have hst1 : st' = st1 := hrnone hfin
            have : st1.t0 = none := by rw [← hst1]; exact hfin
            rw [hst1]; exact hnone this

theorem parseRun_ne_noneSub (lines : List (List Char)) :
    ∀ st, parseRun st lines ≠ .error .noneSub := by
  induction lines with
  | nil => intro st h; exact absurd h (by simp [parseRun])
  | cons l ls ih =>
      intro st h
      rw [parseRun] at h
      cases hpl : parseLine st l with
      | error e =>
          rw [hpl] at h
          injection h with h
          exact parseLine_ne_noneSub st l (by rw [hpl, h])
      | ok st1 =>
          rw [hpl] at h
          exact ih st1 h

theorem parseRun_ok_times_fromNone (lines : List (List Char)) :
    ∀ st st' t0v, st.t0 = none → parseRun st lines = .ok st' →
      st'.t0 = some t0v → st'.times = st.times ++ dataTimesFrom t0v lines := by
  induction lines with
  | nil =>
      intro st st' t0v h0 h hfin
      injection h with h; subst h
      rw [h0] at hfin
      exact absurd hfin (by simp)
  | cons l ls ih =>
      intro st st' t0v h0 h hfin
      rw [parseRun] at h
      cases hts : matchTS l with
      | none =>
          rw [parseLine_noTS hts] at h
          have := ih st st' t0v h0 h hfin
          rw [this, dataTimesFrom_cons, lineTimes, matchData_noTS hts,
            List.nil_append]
      | some p =>
          obtain ⟨t, r⟩ := p
          cases hv : (t.h ≤ 23 && t.m ≤ 59 && t.s ≤ 59) with
          | false => rw [parseLine_none_ts_bad h0 hts hv] at h; exact absurd h (by simp)
          | true =>
              rw [parseLine_none_ts h0 hts hv] at h
              cases hpd : parseData { st with t0 := some t } l with
              | error e => rw [hpd] at h; exact absurd h (by simp)
              | ok st1 =>
                  rw [hpd] at h
                  have hpl1 : parseLine { st with t0 := some t } l = .ok st1 := by
                    simp only [parseLine, parseAnchor_some
                      (show ({ st with t0 := some t } : LogState).t0 = some t from rfl)]
                    exact hpd
                  obtain ⟨h1, h2⟩ := (parseLine_ok_t0 hpl1).1 t rfl
                  obtain ⟨h3, h4⟩ := (parseRun_ok_t0 ls st1 st' h).1 t h1
                  rw [hfin] at h3
                  injection h3 with h3
                  subst h3
                  rw [h4, h2, dataTimesFrom_cons, List.append_assoc]

theorem plotLine_some_data_bad {st : PlotState} {t0v : TOD} {l : List Char}
    {t : TOD} {b : Nat}
    (h0 : st.t0 = some t0v) (hd : matchData l = some (t, b))
    (hv : (t.h ≤ 23 && t.m ≤ 59 && t.s ≤ 59) = false) :
    plotLine st l = .error .strptime := by
  simp only [plotLine, plotAnchor_some h0, plotData_data_bad hd hv]

theorem lineTimes_length (t0 : TOD) (l : List Char) :
    (lineTimes t0 l).length = (lineBytes l).length := by
  cases hd : matchData l <;> simp [lineTimes, lineBytes, hd]

theorem dataTimesFrom_length (t0 : TOD) (lines : List (List Char)) :
    (dataTimesFrom t0 lines).length = (dataBytesList lines).length := by
  induction lines with
  | nil => rfl
  | cons l ls ih =>
      simp [dataTimesFrom_cons, dataBytesList_cons, lineTimes_length, ih]

/-! ### Run-level lemmas for the `plot.py` loop -/

theorem plotRunB_append (xs ys : List (List Char)) :
    ∀ st, plotRunB st (xs ++ ys) =
      match plotRunB st xs with
      | .error e => .error e
      | .ok (st1, true) => plotRunB st1 ys
      | .ok (st1, false) => .ok (st1, false) := by
  induction xs with
  | nil => intro st; rfl
  | cons l ls ih =>
      intro st
      simp only [List.cons_append, plotRunB]
      cases plotLine st l with
      | error e => rfl
      | ok p =>
          obtain ⟨st1, c⟩ := p
          cases c with
          | true => simp only [if_true]; exact ih st1
          | false => rfl

theorem plotLine_ok_anchored {st st' : PlotState} {c : Bool} {t0v : TOD}
    {l : List Char}
    (h : plotLine st l = .ok (st', c)) (h0 : st.t0 = some t0v) :
    st'.t0 = some t0v ∧
    st'.totals = st.totals ++ runningSums (lineBytes l) st.total_bytes ∧
    st'.total_bytes = st.total_bytes + (lineBytes l).sum ∧
    st'.times = st.times ++ lineTimes t0v l := by
  cases hd : matchData l with
  | none =>
      rw [plotLine_some_noData h0 hd] at h
      injection h with h
      injection h with h hc; subst h
      simp [lineBytes, lineTimes, hd, runningSums, h0]
  | some p =>
      obtain ⟨t, b⟩ := p
      cases hv : (t.h ≤ 23 && t.m ≤ 59 && t.s ≤ 59) with
      | false =>
          rw [plotLine_some_data_bad h0 hd hv] at h
          exact absurd h (by simp)
      | true =>
          rw [plotLine_some_data h0 hd hv] at h
          injection h with h
          injection h with h hc; subst h
          simp [lineBytes, lineTimes, hd, runningSums]

theorem plotLine_break_iff {st st' : PlotState} {c : Bool} {l : List Char}
    (h : plotLine st l = .ok (st', c)) :
    (c = false ↔ ((matchData l).isSome = true ∧ THRESHOLD < st'.total_bytes)) := by
  cases h0 : st.t0 with
  | some t0v =>
      cases hd : matchData l with
      | none =>
          rw [plotLine_some_noData h0 hd] at h
          injection h with h; injection h with h hc
          subst h; subst hc
          simp [hd]
      | some p =>
          obtain ⟨t, b⟩ := p
          cases hv : (t.h ≤ 23 && t.m ≤ 59 && t.s ≤ 59) with
          | false =>
              rw [plotLine_some_data_bad h0 hd hv] at h
              exact absurd h (by simp)
          | true =>
              rw [plotLine_some_data h0 hd hv] at h
              injection h with h; injection h with h hc
              subst h; subst hc
              simp [hd, THRESHOLD, Nat.not_le, decide_eq_false_iff_not]
  | none =>
      cases hts : matchTS l with
      | none =>
          rw [plotLine_noTS hts] at h
          injection h with h; injection h with h hc
          subst h; subst hc
          simp [matchData_noTS hts]
      | some p =>
          obtain ⟨t, r⟩ := p
          cases hv : (t.h ≤ 23 && t.m ≤ 59 && t.s ≤ 59) with
          | false =>
              rw [plotLine_none_ts_bad h0 hts hv] at h
              exact absurd h (by simp)
          | true =>
              rw [plotLine_none_ts h0 hts hv] at h
              cases hd : matchData l with
              | none =>
                  rw [plotData_noData hd] at h
                  injection h with h; injection h with h hc
                  subst h; subst hc
                  simp [hd]
              | some p2 =>
                  obtain ⟨t2, b⟩ := p2
                  obtain ⟨ht2, _⟩ := matchData_ts_eq hts hd
                  subst ht2
                  rw [plotData_data rfl hd hv] at h
                  injection h with h; injection h with h hc
                  subst h; subst hc
                  simp [hd, THRESHOLD, Nat.not_le, decide_eq_false_iff_not]

theorem plotLine_ok_none {st st' : PlotState} {c : Bool} {l : List Char}
    (h : plotLine st l = .ok (st', c)) (hfin : st'.t0 = none) :
    st' = st ∧ c = true := by
  cases h0 : st.t0 with
  | some t0v =>
      cases hd : matchData l with
      | none =>
          rw [plotLine_some_noData h0 hd] at h
          injection h with h; injection h with h hc
          subst h; subst hc
          exact ⟨rfl, rfl⟩
      | some p =>
          obtain ⟨t, b⟩ := p
          cases hv : (t.h ≤ 23 && t.m ≤ 59 && t.s ≤ 59) with
          | false =>
              rw [plotLine_some_data_bad h0 hd hv] at h
              exact absurd h (by simp)
          | true =>
              rw [plotLine_some_data h0 hd hv] at h
              injection h with h; injection h with h hc
              subst h
              exact absurd hfin (by simp)
  | none =>
      cases hts : matchTS l with
      | none =>
          rw [plotLine_noTS hts] at h
          injection h with h; injection h with h hc
          subst h; subst hc
          exact ⟨rfl, rfl⟩
      | some p =>
          obtain ⟨t, r⟩ := p
          cases hv : (t.h ≤ 23 && t.m ≤ 59 && t.s ≤ 59) with
          | false =>
              rw [plotLine_none_ts_bad h0 hts hv] at h
              exact absurd h (by simp)
          | true =>
              rw [plotLine_none_ts h0 hts hv] at h
              cases hd : matchData l with
              | none =>
                  rw [plotData_noData hd] at h
                  injection h with h; injection h with h hc
                  subst h
                  exact absurd hfin (by simp)
              | some p2 =>
                  obtain ⟨t2, b⟩ := p2
                  obtain ⟨ht2, _⟩ := matchData_ts_eq hts hd
                  subst ht2
                  rw [plotData_data rfl hd hv] at h
                  injection h with h; injection h with h hc
                  subst h
                  exact absurd hfin (by simp)

theorem plotLine_ne_noneSub (st : PlotState) (l : List Char) :
    plotLine st l ≠ .error .noneSub := by
  cases h0 : st.t0 with
  | some t0v =>
      cases hd : matchData l with
      | none => rw [plotLine_some_noData h0 hd]; simp
      | some p =>
          obtain ⟨t, b⟩ := p
          cases hv : (t.h ≤ 23 && t.m ≤ 59 && t.s ≤ 59) with
          | false => rw [plotLine_some_data_bad h0 hd hv]; simp
          | true => rw [plotLine_some_data h0 hd hv]; simp
  | none =>
      cases hts : matchTS l with
      | none => rw [plotLine_noTS hts]; simp
      | some p =>
          obtain ⟨t, r⟩ := p
          cases hv : (t.h ≤ 23 && t.m ≤ 59 && t.s ≤ 59) with
          | false => rw [plotLine_none_ts_bad h0 hts hv]; simp
          | true =>
              rw [plotLine_none_ts h0 hts hv]
              cases hd : matchData l with
              | none => rw [plotData_noData hd]; simp
              | some p2 =>
                  obtain ⟨t2, b⟩ := p2
                  obtain ⟨ht2, _⟩ := matchData_ts_eq hts hd
                  subst ht2
                  rw [plotData_data rfl hd hv]; simp

theorem plotRunB_noTS (lines : List (List Char)) :
    ∀ st, (∀ l ∈ lines, matchTS l = none) →
      plotRunB st lines = .ok (st, true) := by
  induction lines with
  | nil => intro st _; rfl
  | cons l ls ih =>
      intro st h
      simp only [plotRunB, plotLine_noTS (h l (List.mem_cons_self l ls)), if_true]
      exact ih st (fun l' hm => h l' (List.mem_cons_of_mem l hm))

theorem plotRunB_ne_noneSub (lines : List (List Char)) :
    ∀ st, plotRunB st lines ≠ .error .noneSub := by
  induction lines with
  | nil => intro st h; exact absurd h (by simp [plotRunB])
  | cons l ls ih =>
      intro st h
      rw [plotRunB] at h
      cases hpl : plotLine st l with
      | error e =>
          rw [hpl] at h
          injection h with h
          exact plotLine_ne_noneSub st l (by rw [hpl, h])
      | ok p =>
          obtain ⟨st1, c⟩ := p
          rw [hpl] at h
          cases c with
          | true => exact ih st1 h
          | false => exact absurd h (by simp)

theorem plotRunB_ok_none (lines : List (List Char)) :
    ∀ st st' c, plotRunB st lines = .ok (st', c) → st'.t0 = none →
      st' = st ∧ c = true := by
  induction lines with
  | nil =>
      intro st st' c h hfin
      injection h with h; injection h with h hc
      subst h; subst hc
      exact ⟨rfl, rfl⟩
  | cons l ls ih =>
      intro st st' c h hfin
      rw [plotRunB] at h
      cases hpl : plotLine st l with
      | error e => rw [hpl] at h; exact absurd h (by simp)
      | ok p =>
          obtain ⟨st1, c1⟩ := p
          rw [hpl] at h
          cases c1 with
          | true =>
              simp only [if_true] at h
              obtain ⟨h1, h2⟩ := ih st1 st' c h hfin
              have hst1 : st1.t0 = none := by rw [← h1]; exact hfin
              obtain ⟨h3, _⟩ := plotLine_ok_none hpl hst1
              exact ⟨h1.trans h3, h2⟩
          | false =>
              simp only [if_false] at h
              injection h with h; injection h with h hc
              subst h
              obtain ⟨_, hc1⟩ := plotLine_ok_none hpl hfin
              exact absurd hc1 (by simp)

theorem parseRun_cons_ok {st st1 : LogState} {l : List Char}
    {ls : List (List Char)} (h : parseLine st l = .ok st1) :
    parseRun st (l :: ls) = parseRun st1 ls := by
  rw [parseRun, h]

theorem plotRunB_cons_ok_true {st st1 : PlotState} {l : List Char}
    {ls : List (List Char)} (h : plotLine st l = .ok (st1, true)) :
    plotRunB st (l :: ls) = plotRunB st1 ls := by
  rw [plotRunB, h]; rfl

theorem plotRunB_cons_ok_false {st st1 : PlotState} {l : List Char}
    {ls : List (List Char)} (h : plotLine st l = .ok (st1, false)) :
    plotRunB st (l :: ls) = .ok (st1, false) := by
  rw [plotRunB, h]; rfl

theorem parseRun_fromNone_full (lines : List (List Char)) :
    ∀ st, st.t0 = none → (∀ l ∈ lines, validTSb l = true) →
      anyTS lines = true →
      ∃ t0v, parseRun st lines =
        .ok { times := st.times ++ dataTimesFrom t0v lines,
              totals := st.totals ++ runningSums (dataBytesList lines) st.cum,
              t0 := some t0v,
              cum := st.cum + (dataBytesList lines).sum } := by
  induction lines with
  | nil =>
      intro st _ _ ha
      exact absurd ha (by simp [anyTS])
  | cons l ls ih =>
      intro st h0 hv ha
      have hvl : validTSb l = true := hv l (List.mem_cons_self l ls)
      have hvs : ∀ l' ∈ ls, validTSb l' = true :=
        fun l' hm => hv l' (List.mem_cons_of_mem l hm)
      cases hts : matchTS l with
      | none =>
          have ha' : anyTS ls = true := by
            simpa [anyTS, List.any_cons, hts] using ha
          obtain ⟨t0v, hrun⟩ := ih st h0 hvs ha'
          refine ⟨t0v, ?_⟩
          rw [parseRun_cons_ok (parseLine_noTS hts), hrun]
          simp [dataTimesFrom_cons, dataBytesList_cons, lineBytes, lineTimes,
            matchData_noTS hts]
      | some p =>
          obtain ⟨t, r⟩ := p
          rw [validTSb, hts] at hvl
          refine ⟨t, ?_⟩
          cases hd : matchData l with
          | none =>
              have hpl : parseLine st l = .ok { st with t0 := some t } :=
                (parseLine_none_ts h0 hts hvl).trans (parseData_noData hd)
              rw [parseRun_cons_ok hpl,
                parseRun_anchored ls { st with t0 := some t } t rfl hvs]
              simp [dataTimesFrom_cons, dataBytesList_cons, lineBytes,
                lineTimes, hd]
          | some p2 =>
              obtain ⟨t2, b⟩ := p2
              obtain ⟨ht2, _⟩ := matchData_ts_eq hts hd
              rw [ht2] at hd
              have hpl : parseLine st l =
                  .ok { times := st.times ++ [t.toUs - t.toUs],
                        totals := st.totals ++ [st.cum + b],
                        t0 := some t, cum := st.cum + b } :=
                (parseLine_none_ts h0 hts hvl).trans (parseData_data rfl hd hvl)
              rw [parseRun_cons_ok hpl, parseRun_anchored ls _ t rfl hvs]
              simp [dataTimesFrom_cons, dataBytesList_cons, lineBytes,
                lineTimes, hd, runningSums, List.append_assoc, Nat.add_assoc]

theorem plotRunB_anchored_full (lines : List (List Char)) :
    ∀ (st : PlotState) (t0v : TOD), st.t0 = some t0v →
      (∀ l ∈ lines, validTSb l = true) →
      st.total_bytes + (dataBytesList lines).sum ≤ THRESHOLD →
      plotRunB st lines =
        .ok ({ times := st.times ++ dataTimesFrom t0v lines,
               totals := st.totals ++ runningSums (dataBytesList lines) st.total_bytes,
               t0 := some t0v,
               total_bytes := st.total_bytes + (dataBytesList lines).sum },
             true) := by
  induction lines with
  | nil =>
      intro st t0v h0 _ _
      obtain ⟨ts, tot, tz, c⟩ := st
      subst h0
      simp [plotRunB, dataTimesFrom_nil, dataBytesList_nil, runningSums]
  | cons l ls ih =>
      intro st t0v h0 hv hth
      have hvl : validTSb l = true := hv l (List.mem_cons_self l ls)
      have hvs : ∀ l' ∈ ls, validTSb l' = true :=
        fun l' hm => hv l' (List.mem_cons_of_mem l hm)
      cases hd : matchData l with
      | none =>
          rw [plotRunB_cons_ok_true (plotLine_some_noData h0 hd)]
          rw [ih st t0v h0 hvs (by
            simpa [dataBytesList_cons, lineBytes, hd] using hth)]
          simp [dataTimesFrom_cons, dataBytesList_cons, lineBytes, lineTimes, hd]
      | some p =>
          obtain ⟨t, b⟩ := p
          obtain ⟨r, hts⟩ := matchData_ts hd
          rw [validTSb, hts] at hvl
          have hble : st.total_bytes + b ≤ THRESHOLD := by
            rw [dataBytesList_cons, lineBytes, hd] at hth
            simp only [List.sum_append, List.sum_cons, List.sum_nil] at hth
            omega
          have hcont : decide (st.total_bytes + b ≤ THRESHOLD) = true :=
            decide_eq_true hble
          have hpl : plotLine st l =
              .ok ({ times := st.times ++ [t.toUs - t0v.toUs],
                     totals := st.totals ++ [st.total_bytes + b],
                     t0 := some t0v, total_bytes := st.total_bytes + b },
                   true) := by
            rw [plotLine_some_data h0 hd hvl, hcont]
          rw [plotRunB_cons_ok_true hpl]
          rw [ih _ t0v rfl hvs (by
            rw [dataBytesList_cons, lineBytes, hd] at hth
            simp only [List.sum_append, List.sum_cons, List.sum_nil] at hth ⊢
            omega)]
          simp [dataTimesFrom_cons, dataBytesList_cons, lineBytes, lineTimes,
            hd, runningSums, List.append_assoc, Nat.add_assoc]

theorem plotRunB_fromNone_full (lines : List (List Char)) :
    ∀ (st : PlotState), st.t0 = none →
      (∀ l ∈ lines, validTSb l = true) → anyTS lines = true →
      st.total_bytes + (dataBytesList lines).sum ≤ THRESHOLD →
      ∃ t0v, plotRunB st lines =
        .ok ({ times := (st.times ++ [0]) ++ dataTimesFrom t0v lines,
               totals := (st.totals ++ [0]) ++
                 runningSums (dataBytesList lines) st.total_bytes,
               t0 := some t0v,
               total_bytes := st.total_bytes + (dataBytesList lines).sum },
             true) := by
  induction lines with
  | nil =>
      intro st _ _ ha _
      exact absurd ha (by simp [anyTS])
  | cons l ls ih =>
      intro st h0 hv ha hth
      have hvl : validTSb l = true := hv l (List.mem_cons_self l ls)
      have hvs : ∀ l' ∈ ls, validTSb l' = true :=
        fun l' hm => hv l' (List.mem_cons_of_mem l hm)
      cases hts : matchTS l with
      | none =>
          have ha' : anyTS ls = true := by
            simpa [anyTS, List.any_cons, hts] using ha
          have hth' : st.total_bytes + (dataBytesList ls).sum ≤ THRESHOLD := by
            simpa [dataBytesList_cons, lineBytes, matchData_noTS hts] using hth
          obtain ⟨t0v, hrun⟩ := ih st h0 hvs ha' hth'
          refine ⟨t0v, ?_⟩
          rw [plotRunB_cons_ok_true (plotLine_noTS hts), hrun]
          simp [dataTimesFrom_cons, dataBytesList_cons, lineBytes, lineTimes,
            matchData_noTS hts]
      | some p =>
          obtain ⟨t, r⟩ := p
          rw [validTSb, hts] at hvl
          refine ⟨t, ?_⟩
          cases hd : matchData l with
          | none =>
              have hpl : plotLine st l =
                  .ok ({ st with t0 := some t, times := st.times ++ [0], totals := st.totals ++ [0] }, true) := by
                rw [plotLine_none_ts h0 hts hvl, plotData_noData hd]
              rw [plotRunB_cons_ok_true hpl]
              rw [plotRunB_anchored_full ls _ t rfl hvs (by
                simpa [dataBytesList_cons, lineBytes, hd] using hth)]
              simp [dataTimesFrom_cons, dataBytesList_cons, lineBytes,
                lineTimes, hd]
          | some p2 =>
              obtain ⟨t2, b⟩ := p2
              obtain ⟨ht2, _⟩ := matchData_ts_eq hts hd
              rw [ht2] at hd
              have hble : st.total_bytes + b ≤ THRESHOLD := by
                rw [dataBytesList_cons, lineBytes, hd] at hth
                simp only [List.sum_append, List.sum_cons, List.sum_nil] at hth
                omega
              have hcont : decide (st.total_bytes + b ≤ THRESHOLD) = true :=
                decide_eq_true hble
              have hpl : plotLine st l =
                  .ok ({ times := (st.times ++ [0]) ++ [t.toUs - t.toUs],
                         totals := (st.totals ++ [0]) ++ [st.total_bytes + b],
                         t0 := some t,
                         total_bytes := st.total_bytes + b }, true) := by
                rw [plotLine_none_ts h0 hts hvl, plotData_data rfl hd hvl,
                  hcont]
              rw [plotRunB_cons_ok_true hpl]
              rw [plotRunB_anchored_full ls _ t rfl hvs (by
                rw [dataBytesList_cons, lineBytes, hd] at hth
                simp only [List.sum_append, List.sum_cons, List.sum_nil] at hth ⊢
                omega)]
              simp [dataTimesFrom_cons, dataBytesList_cons, lineBytes,
                lineTimes, hd, runningSums, List.append_assoc, Nat.add_assoc]

theorem plotRunB_ok_anchored (lines : List (List Char)) :
    ∀ st st' c t0v, st.t0 = some t0v → plotRunB st lines = .ok (st', c) →
      ∃ k, st'.t0 = some t0v ∧
        st'.totals = st.totals ++
          runningSums ((dataBytesList lines).take k) st.total_bytes ∧
        st'.total_bytes = st.total_bytes + ((dataBytesList lines).take k).sum ∧
        st'.times = st.times ++ (dataTimesFrom t0v lines).take k := by
  induction lines with
  | nil =>
      intro st st' c t0v h0 h
      injection h with h; injection h with h hc
      subst h
      exact ⟨0, h0, by simp [runningSums], by simp, by simp⟩
  | cons l ls ih =>
      intro st st' c t0v h0 h
      rw [plotRunB] at h
      cases hpl : plotLine st l with
      | error e => rw [hpl] at h; exact absurd h (by simp)
      | ok p =>
          obtain ⟨st1, c1⟩ := p
          rw [hpl] at h
          obtain ⟨ha, hb, hc', hd⟩ := plotLine_ok_anchored hpl h0
          cases c1 with
          | false =>
              simp only [Bool.false_eq_true, if_false] at h
              injection h with h; injection h with h hcc
              subst h
              refine ⟨(lineBytes l).length, ha, ?_, ?_, ?_⟩
              · rw [hb, dataBytesList_cons, List.take_left]
              · rw [hc', dataBytesList_cons, List.take_left]
              · rw [hd, dataTimesFrom_cons, ← lineTimes_length t0v l,
                  List.take_left]
          | true =>
              simp only [if_true] at h
              obtain ⟨k', h1, h2, h3, h4⟩ := ih st1 st' c t0v ha h
              refine ⟨(lineBytes l).length + k', h1, ?_, ?_, ?_⟩
              · rw [h2, hb, hc', dataBytesList_cons, List.take_append,
                  runningSums_append, List.append_assoc]
              · rw [h3, hc', dataBytesList_cons, List.take_append,
                  List.sum_append, Nat.add_assoc]
              · rw [h4, hd, dataTimesFrom_cons, ← lineTimes_length t0v l,
                  List.take_append, List.append_assoc]

theorem plotRunB_ok_fromNone (lines : List (List Char)) :
    ∀ st st' c t0v, st.t0 = none → plotRunB st lines = .ok (st', c) →
      st'.t0 = some t0v →
      ∃ k, st'.totals = (st.totals ++ [0]) ++
          runningSums ((dataBytesList lines).take k) st.total_bytes ∧
        st'.total_bytes = st.total_bytes + ((dataBytesList lines).take k).sum ∧
        st'.times = (st.times ++ [0]) ++ (dataTimesFrom t0v lines).take k := by
  induction lines with
  | nil =>
      intro st st' c t0v h0 h hfin
      injection h with h; injection h with h hc
      subst h
      rw [h0] at hfin
      exact absurd hfin (by simp)
  | cons l ls ih =>
      intro st st' c t0v h0 h hfin
      cases hts : matchTS l with
      | none =>
          rw [plotRunB_cons_ok_true (plotLine_noTS hts)] at h
          obtain ⟨k, h1, h2, h3⟩ := ih st st' c t0v h0 h hfin
          refine ⟨k, ?_, ?_, ?_⟩
          · rw [h1, dataBytesList_cons, lineBytes, matchData_noTS hts,
              List.nil_append]
          · rw [h2, dataBytesList_cons, lineBytes, matchData_noTS hts,
              List.nil_append]
          · rw [h3, dataTimesFrom_cons, lineTimes, matchData_noTS hts,
              List.nil_append]
      | some p =>
          obtain ⟨t, r⟩ := p
          cases hv : (t.h ≤ 23 && t.m ≤ 59 && t.s ≤ 59) with
          | false =>
              rw [plotRunB] at h
              rw [plotLine_none_ts_bad h0 hts hv] at h
              exact absurd h (by simp)
          | true =>
              rw [plotRunB] at h
              rw [plotLine_none_ts h0 hts hv] at h
              cases hpd : plotData { st with t0 := some t, times := st.times ++ [0], totals := st.totals ++ [0] } l with
              | error e => rw [hpd] at h; exact absurd h (by simp)
              | ok p2 =>
                  obtain ⟨st1, c1⟩ := p2
                  rw [hpd] at h
                  have hpl1 : plotLine { st with t0 := some t, times := st.times ++ [0], totals := st.totals ++ [0] } l = .ok (st1, c1) := by
                    simp only [plotLine, plotAnchor_some (show ({ st with t0 := some t, times := st.times ++ [0], totals := st.totals ++ [0] } : PlotState).t0 = some t from rfl)]
                    exact hpd
                  obtain ⟨ha, hb, hc', hd⟩ := plotLine_ok_anchored hpl1 rfl
                  cases c1 with
                  | false =>
                      simp only [Bool.false_eq_true, if_false] at h
                      injection h with h; injection h with h hcc
                      subst h
                      rw [hfin] at ha
                      injection ha with ha
                      subst ha
                      refine ⟨(lineBytes l).length, ?_, ?_, ?_⟩
                      · rw [hb, dataBytesList_cons, List.take_left]
                      · rw [hc', dataBytesList_cons, List.take_left]
                      · rw [hd, dataTimesFrom_cons, ← lineTimes_length t0v l,
                          List.take_left]
                  | true =>
                      simp only [if_true] at h
                      obtain ⟨k', h1, h2, h3, h4⟩ :=
                        plotRunB_ok_anchored ls _ st' c t ha h
                      rw [hfin] at h1
                      injection h1 with h1
                      subst h1
                      refine ⟨(lineBytes l).length + k', ?_, ?_, ?_⟩
                      · rw [h2, hb, hc', dataBytesList_cons, List.take_append,
                          runningSums_append, List.append_assoc]
                      · rw [h3, hc', dataBytesList_cons, List.take_append,
                          List.sum_append, Nat.add_assoc]
                      · rw [h4, hd, dataTimesFrom_cons,
                          ← lineTimes_length t0v l, List.take_append,
                          List.append_assoc]

/-! ### The `run_traces.py` orchestration

The external collector `trace.sh` is abstracted as an exit-status function
from its two positional arguments (download file, log path) to an integer
exit code; `subprocess.run(..., check=True)` raises on any non-zero code. -/

/-- The log path derived for one run:
`traces/{file_name}_{run_idx}.log` (line 87). -/
def logPath (file_name : String) (run_idx : Nat) : String :=
  "traces/" ++ file_name ++ "_" ++ toString run_idx ++ ".log"

/-- Model of `run_trace` (lines 85-95): invoke the collector once; a zero
exit status returns the log path, a non-zero status raises
`CalledProcessError`. -/
def run_trace (exit_code : String → String → Int) (file_name : String)
    (run_idx : Nat) : Except Unit String :=
  if exit_code file_name (logPath file_name run_idx) = 0 then
    .ok (logPath file_name run_idx)
  else .error ()

/-- The collection loop of `main` (line 122) over a list of run indices,
also recording every collector invocation `(file_name, log_path)` in order.
The loop stops at the first raising invocation. -/
def runTraces (exit_code : String → String → Int) (file_name : String) :
    List Nat → List (String × String) × Except Unit (List String)
  | [] => ([], .ok [])
  | i :: is =>
      match run_trace exit_code file_name i with
      | .ok p =>
          let rest := runTraces exit_code file_name is
          ((file_name, logPath file_name i) :: rest.1, rest.2.map (p :: ·))
      | .error _ => ([(file_name, logPath file_name i)], .error ())

/-- The run indices of `main`: `range(n_runs)` shifted by one
(`i + 1` on line 122), i.e. `1, 2, ..., n`. -/
def mainIndices (n : Nat) : List Nat :=
  (List.range n).map (· + 1)

/-- The allow-list of `run_traces.py` (lines 45-49). -/
def ALLOWED_FILES : List String := ["1K.bin", "1M.bin", "1G.bin"]

/-- Model of Python `int(s)` restricted to the forms that matter here: an
optional minus sign followed by one or more decimal digits (whitespace,
`+` and underscore acceptance of the real `int` are not exercised by the
tool's validation logic). `none` is a `ValueError`. -/
def pyInt (s : String) : Option Int :=
  match s.toList with
  | [] => none
  | '-' :: ds =>
      if !ds.isEmpty && ds.all Char.isDigit then
        some (-(Int.ofNat (ds.foldl (fun a d => a * 10 + digitVal d) 0)))
      else none
  | ds =>
      if ds.all Char.isDigit then
        some (Int.ofNat (ds.foldl (fun a d => a * 10 + digitVal d) 0))
      else none

/-- Outcome of `main` in `run_traces.py`: each `sys.exit(...)` with a message
is a distinct non-zero-exit outcome, and `ran` is the run reaching the
collection loop, carrying the invocation record and the collected paths. -/
inductive MainResult
  | usageError
  | badN
  | badFile
  | noTraceSh
  | ran (calls : List (String × String)) (res : Except Unit (List String))

/-- Model of `main` (lines 101-122 of `run_traces.py`): argument-count
check, `int` conversion with the `n_runs > 0` assertion, allow-list check,
`trace.sh` existence check (`traceShExists` abstracts the filesystem), then
the collection loop. -/
def mainM (exit_code : String → String → Int) (traceShExists : Bool)
    (argv : List String) : MainResult :=
  match argv with
  | _ :: file_name :: nstr :: _ =>
      match pyInt nstr with
      | none => .badN
      | some n =>
          if n ≤ 0 then .badN
          else if !(ALLOWED_FILES.contains file_name) then .badFile
          else if !traceShExists then .noTraceSh
          else
            .ran (runTraces exit_code file_name (mainIndices n.toNat)).1
                 (runTraces exit_code file_name (mainIndices n.toNat)).2
  | _ => .usageError

/-! ### Text decoding

`plot.py` opens its log with `encoding='utf-8'` (strict: invalid bytes raise
`UnicodeDecodeError`); `run_traces.py` opens with `errors="ignore"` (invalid
bytes are dropped and decoding continues). -/

/-- Whether `b` is a UTF-8 continuation byte in the range `[lo, hi]`. -/
def contOK (lo hi b : Nat) : Bool := lo ≤ b && b ≤ hi

/-- Decode one UTF-8 scalar value from leading byte `b` and the following
bytes.  Returns the code point and how many continuation bytes were
consumed; `none` on an invalid or truncated sequence (surrogates and
overlong encodings are rejected, as CPython does). -/
def decodeOne (b : Nat) (bs : List Nat) : Option (Nat × Nat) :=
  if b ≤ 0x7F then some (b, 0)
  else if 0xC2 ≤ b && b ≤ 0xDF then
    match bs with
    | b1 :: _ =>
        if contOK 0x80 0xBF b1 then some ((b - 0xC0) * 64 + (b1 - 0x80), 1)
        else none
    | _ => none
  else if 0xE0 ≤ b && b ≤ 0xEF then
    match bs with
    | b1 :: b2 :: _ =>
        if contOK (if b = 0xE0 then 0xA0 else 0x80)
             (if b = 0xED then 0x9F else 0xBF) b1 &&
           contOK 0x80 0xBF b2 then
          some ((b - 0xE0) * 4096 + (b1 - 0x80) * 64 + (b2 - 0x80), 2)
        else none
    | _ => none
  else if 0xF0 ≤ b && b ≤ 0xF4 then
    match bs with
    | b1 :: b2 :: b3 :: _ =>
        if contOK (if b = 0xF0 then 0x90 else 0x80)
             (if b = 0xF4 then 0x8F else 0xBF) b1 &&
           contOK 0x80 0xBF b2 && contOK 0x80 0xBF b3 then
          some ((b - 0xF0) * 262144 + (b1 - 0x80) * 4096 +
            (b2 - 0x80) * 64 + (b3 - 0x80), 3)
        else none
    | _ => none
  else none

/-- Strict UTF-8 decoding to code points, the model of
`open(logfile, encoding='utf-8')`: `none` models `UnicodeDecodeError`. -/
def utf8Strict : List Nat → Option (List Nat)
  | [] => some []
  | b :: bs =>
      match decodeOne b bs with
      | some (cp, k) => (utf8Strict (bs.drop k)).map (cp :: ·)
      | none => none
termination_by l => l.length
decreasing_by
  simp only [List.length_cons, List.length_drop]
  omega

/-- Lenient UTF-8 decoding, the model of
`path.open("r", encoding="utf-8", errors="ignore")`: an invalid byte is
skipped and decoding continues; this never fails. -/
def utf8Lenient : List Nat → List Nat
  | [] => []
  | b :: bs =>
      match decodeOne b bs with
      | some (cp, k) => cp :: utf8Lenient (bs.drop k)
      | none => utf8Lenient bs
termination_by l => l.length
decreasing_by
  · simp only [List.length_cons, List.length_drop]
    omega
  · simp only [List.length_cons]
    omega

/-- Code points to characters (every valid UTF-8 scalar is a valid `Char`). -/
def decodeChars (cps : List Nat) : List Char := cps.map Char.ofNat

/-- Split decoded text into lines at `\n`, as iterating a Python text file
does; the terminator is not part of the matched patterns so it is dropped,
and no empty final line is produced for text ending in `\n`. -/
def splitLinesGo : List Char → List Char → List (List Char)
  | acc, [] => if acc.isEmpty then [] else [acc.reverse]
  | acc, c :: cs =>
      if c = '\n' then acc.reverse :: splitLinesGo [] cs
      else splitLinesGo (c :: acc) cs

/-- Split a character stream into lines. -/
def splitLines (cs : List Char) : List (List Char) := splitLinesGo [] cs

/-- The `plot.py` pipeline from raw log bytes: strict decoding, then the
parse loop. -/
def plotFromBytes (bs : List Nat) : Except Err PlotState :=
  match utf8Strict bs with
  | none => .error .decode
  | some cps => runPlot (splitLines (decodeChars cps))

/-- The `parse_log` pipeline from raw log bytes: lenient decoding (never
failing), then the parse loop. -/
def parseLogFromBytes (bs : List Nat) : Except Err LogState :=
  parseLog (splitLines (decodeChars (utf8Lenient bs)))

/-- Bytes of an ASCII string. -/
def asciiBytes (s : String) : List Nat := s.toList.map Char.toNat

/-- Modelled from the spec: downstream plotting of a series
(`plt.step(times, totals, ...)`) succeeds — rendering an empty chart for an
empty series — when the two coordinate lists have equal length; the spec
requires that an empty series "must not crash" the plot. -/
def stepOK (times : List Int) (totals : List Nat) : Bool :=
  times.length == totals.length

/-! ### Orchestration lemmas -/

theorem runTraces_allOk (ec : String → String → Int) (file : String) :
    ∀ is, (∀ i ∈ is, ec file (logPath file i) = 0) →
      runTraces ec file is =
        (is.map (fun i => (file, logPath file i)), .ok (is.map (logPath file))) := by
  intro is
  induction is with
  | nil => intro _; rfl
  | cons i is ih =>
      intro h
      have hi : ec file (logPath file i) = 0 := h i (List.mem_cons_self i is)
      rw [runTraces, run_trace, if_pos hi,
        ih (fun j hm => h j (List.mem_cons_of_mem i hm))]
      simp [Except.map]

theorem runTraces_firstFail (ec : String → String → Int) (file : String) :
    ∀ as j bs, (∀ i ∈ as, ec file (logPath file i) = 0) →
      ec file (logPath file j) ≠ 0 →
      runTraces ec file (as ++ j :: bs) =
        ((as ++ [j]).map (fun i => (file, logPath file i)), .error ()) := by
  intro as
  induction as with
  | nil =>
      intro j bs _ hj
      rw [List.nil_append, runTraces, run_trace, if_neg hj]
      simp
  | cons a as ih =>
      intro j bs h hj
      have ha : ec file (logPath file a) = 0 := h a (List.mem_cons_self a as)
      rw [List.cons_append, runTraces, run_trace, if_pos ha,
        ih j bs (fun i hm => h i (List.mem_cons_of_mem a hm)) hj]
      simp [Except.map]

theorem mainIndices_eq_range' (n : Nat) : mainIndices n = List.range' 1 n := by
  rw [mainIndices, List.range'_eq_map_range]
  simp [Nat.add_comm]

theorem utf8Lenient_of_strict_aux :
    ∀ (n : Nat) (bs : List Nat), bs.length ≤ n →
      ∀ cps, utf8Strict bs = some cps → utf8Lenient bs = cps := by
  intro n
  induction n with
  | zero =>
      intro bs hlen cps h
      cases bs with
      | nil =>
          rw [utf8Strict] at h
          injection h with h; subst h
          rw [utf8Lenient]
      | cons b bs' => exact absurd hlen (by simp)
  | succ n ih =>
      intro bs hlen cps h
      cases bs with
      | nil =>
          rw [utf8Strict] at h
          injection h with h; subst h
          rw [utf8Lenient]
      | cons b bs' =>
          rw [utf8Strict] at h
          cases hdo : decodeOne b bs' with
          | none => simp only [hdo] at h; exact absurd h (by simp)
          | some p =>
              obtain ⟨cp, k⟩ := p
              simp only [hdo] at h
              cases hrec : utf8Strict (bs'.drop k) with
              | none =>
                  rw [hrec] at h
                  exact absurd h (by simp)
              | some cps' =>
                  rw [hrec] at h
                  simp only [Option.map_some', Option.some.injEq] at h
                  subst h
                  rw [utf8Lenient]
                  simp only [hdo]
                  have hlen' : (bs'.drop k).length ≤ n := by
                    simp only [List.length_cons] at hlen
                    simp only [List.length_drop]
                    omega
                  rw [ih (bs'.drop k) hlen' cps' hrec]

theorem utf8Lenient_of_strict {bs : List Nat} {cps : List Nat}
    (h : utf8Strict bs = some cps) : utf8Lenient bs = cps :=
  utf8Lenient_of_strict_aux bs.length bs (Nat.le_refl _) cps h

/-! ### Concrete example logs -/

/-- A log line with no timestamp. -/
def exInfoLine : List Char := "== Info: connecting".toList

/-- An anchor-only line: starts with a timestamp, not a data-receipt line. -/
def exAnchorLine : List Char := "00:00:01.000000 == Info: Connected".toList

/-- A data-receipt line (1024 bytes at 00:00:02.500000). -/
def exDataLine : List Char := "00:00:02.500000 <= Recv data, 1024 bytes".toList

/-- A second data-receipt line (7 bytes at 00:00:03.000000). -/
def exDataLine2 : List Char := "00:00:03.000000 <= Recv data, 7 bytes".toList

/-- A small example log: junk, anchor, two data lines. -/
def exLines : List (List Char) :=
  [exInfoLine, exAnchorLine, exDataLine, exDataLine2]

/-- A line matching the data pattern whose hour field (24) is not a valid
time of day. -/
def exBadLine : List Char := "24:00:00.000000 <= Recv data, 5 bytes".toList

/-- A data line whose single byte count already exceeds the 12 MiB
threshold. -/
def exBigLine : List Char :=
  "00:00:05.000000 <= Recv data, 12582913 bytes".toList

/-- An anchor just before midnight. -/
def exMidAnchor : List Char := "23:59:59.900000 == Info: Connected".toList

/-- A data line just after midnight (timestamp smaller than the anchor). -/
def exMidData : List Char := "00:00:00.100000 <= Recv data, 7 bytes".toList

/-- A log that crosses midnight between its anchor and its data line. -/
def exMidLines : List (List Char) := [exMidAnchor, exMidData]

/-- Bytes of a valid ASCII log line followed by the invalid byte `0xFF`. -/
def exBadBytes : List Nat :=
  asciiBytes "00:00:02.500000 <= Recv data, 1024 bytes" ++ [255]

/-! ### The claims -/

/-- C10: every line matching the data-receipt pattern also matches the
anchor timestamp pattern with the same captured time (the data regex is a
refinement of the anchor regex), and consequently — the anchor check running
before the data check on each line — the subtraction from an unset `t0` is
unreachable: neither parser can raise the `None`-subtraction `TypeError`,
for every input and every starting state. -/
theorem C10_refinement_no_none_sub :
    (∀ l t b, matchData l = some (t, b) → ∃ r, matchTS l = some (t, r)) ∧
    (∀ lines st, parseRun st lines ≠ .error .noneSub) ∧
    (∀ lines st, plotRunB st lines ≠ .error .noneSub) ∧
    (∀ lines, parseLog lines ≠ .error .noneSub) ∧
    (∀ lines, runPlot lines ≠ .error .noneSub) := by
  refine ⟨fun l t b h => matchData_ts h,
          fun lines st => parseRun_ne_noneSub lines st,
          fun lines st => plotRunB_ne_noneSub lines st,
          fun lines => parseRun_ne_noneSub lines _, ?_⟩
  intro lines h
  rw [runPlot] at h
  cases hrun : plotRunB {} lines with
  | error e =>
      rw [hrun] at h
      injection h with h; subst h
      exact plotRunB_ne_noneSub lines {} hrun
  | ok p => rw [hrun] at h; exact absurd h (by simp [Except.map])

/-- C10 witness: the refinement at a concrete data-receipt line. -/
theorem C10_witness :
    ∃ r, matchTS exDataLine = some (⟨0, 0, 2, 500000⟩, r) :=
  C10_refinement_no_none_sub.1 exDataLine ⟨0, 0, 2, 500000⟩ 1024 (by rfl)

/-- C1 counterexample: on the one-line log whose single line is itself a
data-receipt line, the multi-run parser `parse_log` produces a series of
length 1 with first sample `(0, 1024)` — not the claimed length
`1 + countData = 2` with first sample `(0, 0)`: no implicit `(0, 0)` sample
is appended by the multi-run variant. -/
theorem C1_counterexample :
    parseLog [exDataLine] =
      .ok { times := [0], totals := [1024],
            t0 := some ⟨0, 0, 2, 500000⟩, cum := 1024 } ∧
    countData [exDataLine] = 1 ∧
    ¬ (([(1024 : Nat)]).length = 1 + countData [exDataLine] ∧
       ([(1024 : Nat)]).head? = some 0) := by
  refine ⟨by rfl, by rfl, ?_⟩
  intro ⟨h1, h2⟩
  exact absurd h2 (by simp)

/-- C1 (amended): for every log with at least one anchor line, only valid
timestamps where matched, and total data volume within the early-stop
threshold (so that every line is processed), the single-trace parser of
`plot.py` produces a series of length `1 + countData` beginning with the
sample `(0, 0)`, while the multi-run `parse_log` appends no implicit sample
and produces a series of length exactly `countData`. -/
theorem C1_series_shape (lines : List (List Char))
    (hv : ∀ l ∈ lines, validTSb l = true)
    (ha : anyTS lines = true)
    (hth : sumBytes lines ≤ THRESHOLD) :
    (∃ st, runPlot lines = .ok st ∧
       st.times.length = 1 + countData lines ∧
       st.totals.length = 1 + countData lines ∧
       st.times.head? = some 0 ∧ st.totals.head? = some 0) ∧
    (∃ st, parseLog lines = .ok st ∧
       st.times.length = countData lines ∧
       st.totals.length = countData lines) := by
  constructor
  · obtain ⟨t0v, hrun⟩ := plotRunB_fromNone_full lines {} rfl hv ha
      (by simpa [sumBytes] using hth)
    refine ⟨_, by rw [runPlot, hrun]; rfl, ?_, ?_, ?_, ?_⟩
    · simp [dataTimesFrom_length, ← countData_eq_length, Nat.add_comm]
    · simp [runningSums_length, ← countData_eq_length, Nat.add_comm]
    · simp
    · simp
  · obtain ⟨t0v, hrun⟩ := parseRun_fromNone_full lines {} rfl hv ha
    refine ⟨_, hrun, ?_, ?_⟩
    · simp [dataTimesFrom_length, ← countData_eq_length]
    · simp [runningSums_length, ← countData_eq_length]

/-- C1 witness: the amended claim evaluated on a concrete four-line log with
one junk line, one anchor line and two data lines. -/
theorem C1_witness :
    (∃ st, runPlot exLines = .ok st ∧
       st.times.length = 1 + countData exLines ∧
       st.totals.length = 1 + countData exLines ∧
       st.times.head? = some 0 ∧ st.totals.head? = some 0) ∧
    (∃ st, parseLog exLines = .ok st ∧
       st.times.length = countData exLines ∧
       st.totals.length = countData exLines) :=
  C1_series_shape exLines (by decide) (by rfl) (by decide)

/-- C2: for every successfully parsed log, the cumulative-bytes values are
exactly the running sums, in file order, of the byte counts of the
data-receipt lines processed so far — all data lines for `parse_log`, the
processed front of them (`take k`) for `plot.py`, whose series additionally
starts at the implicit 0 when anchored — and are therefore monotonically
non-decreasing. -/
theorem C2_running_sums (lines : List (List Char)) :
    (∀ st, parseLog lines = .ok st →
       st.totals = runningSums (dataBytesList lines) 0 ∧
       List.Chain' (· ≤ ·) st.totals) ∧
    (∀ st, runPlot lines = .ok st →
       (∃ k, st.totals =
          if st.t0.isSome then
            0 :: runningSums ((dataBytesList lines).take k) 0
          else []) ∧
       List.Chain' (· ≤ ·) st.totals) := by
  constructor
  · intro st h
    obtain ⟨h1, _⟩ := parseRun_ok_totals lines {} st h
    simp only [List.nil_append] at h1
    refine ⟨h1, ?_⟩
    rw [h1]
    exact (runningSums_chain (dataBytesList lines) 0).tail
  · intro st h
    rw [runPlot] at h
    cases hrun : plotRunB {} lines with
    | error e => rw [hrun] at h; exact absurd h (by simp [Except.map])
    | ok p =>
        obtain ⟨st1, c⟩ := p
        rw [hrun] at h
        simp only [Except.map, Except.ok.injEq] at h
        subst h
        cases hfin : st1.t0 with
        | none =>
            obtain ⟨hst, _⟩ := plotRunB_ok_none lines {} st1 c hrun hfin
            subst hst
            exact ⟨⟨0, by simp [hfin]⟩, by simp⟩
        | some t0v =>
            obtain ⟨k, h1, _, _⟩ :=
              plotRunB_ok_fromNone lines {} st1 c t0v rfl hrun hfin
            simp only [List.nil_append] at h1
            refine ⟨⟨k, ?_⟩, ?_⟩
            · simp only [hfin, Option.isSome_some, if_pos]
              simpa using h1
            · rw [h1]
              simpa using runningSums_chain ((dataBytesList lines).take k) 0

/-- C2 witness: the running-sum totals of the concrete example log. -/
theorem C2_witness :
    ({ times := [1500000, 2000000], totals := [1024, 1031],
       t0 := some ⟨0, 0, 1, 0⟩, cum := 1031 } : LogState).totals =
      runningSums (dataBytesList exLines) 0 ∧
    List.Chain' (· ≤ ·)
      ({ times := [1500000, 2000000], totals := [1024, 1031],
         t0 := some ⟨0, 0, 1, 0⟩, cum := 1031 } : LogState).totals :=
  (C2_running_sums exLines).1 _ (by rfl)

/-- C3: the single-trace loop of `plot.py` breaks exactly at the sample
whose cumulative total first strictly exceeds `12 * 1024 * 1024` bytes —
the crossing sample is included, and once broken, any lines appended after
the processed front never change the result — while the `parse_log` loop of
`run_traces.py` applies no threshold: it composes unconditionally over
concatenation, and every data-receipt line of the entire file contributes a
sample. -/
theorem C3_early_stop :
    (∀ pre rest st stb, plotRunB st pre = .ok (stb, false) →
       plotRunB st (pre ++ rest) = .ok (stb, false)) ∧
    (∀ st l st' c, plotLine st l = .ok (st', c) →
       (c = false ↔ ((matchData l).isSome = true ∧
          THRESHOLD < st'.total_bytes))) ∧
    (∀ pre rest st, parseRun st (pre ++ rest) =
       match parseRun st pre with
       | .error e => .error e
       | .ok st1 => parseRun st1 rest) ∧
    (∀ lines st st', parseRun st lines = .ok st' →
       st'.totals.length = st.totals.length + countData lines) := by
  refine ⟨?_, fun st l st' c h => plotLine_break_iff h,
          fun pre rest st => parseRun_append pre rest st, ?_⟩
  · intro pre rest st stb h
    rw [plotRunB_append pre rest st, h]
  · intro lines st st' h
    obtain ⟨h1, _⟩ := parseRun_ok_totals lines st st' h
    rw [h1]
    simp [runningSums_length, countData_eq_length]

/-- C3 witness: a concrete crossing — a single data line of 12582913 bytes
(> 12 MiB) breaks the loop, and a line appended after it is never read. -/
theorem C3_witness :
    plotRunB {} ([exBigLine] ++ [exDataLine]) =
      .ok ({ times := [0, 0], totals := [0, 12582913],
             t0 := some ⟨0, 0, 5, 0⟩, total_bytes := 12582913 }, false) :=
  C3_early_stop.1 [exBigLine] [exDataLine] {} _ (by rfl)

/-- C4: the recorded elapsed values are exactly the per-line timestamp
differences `ts - t0` in microseconds (`total_seconds()` up to the fixed
10^6 scale): the whole `parse_log` series is `dataTimesFrom t0 lines`, each
anchored `plot.py` step appends `lineTimes t0 l`, and no day-rollover
correction exists — the recorded difference is negative exactly when the
event's time of day is earlier than the anchor's. -/
theorem C4_elapsed (lines : List (List Char)) :
    (∀ st t0v, parseLog lines = .ok st → st.t0 = some t0v →
       st.times = dataTimesFrom t0v lines) ∧
    (∀ (st : PlotState) t0v l st' c, st.t0 = some t0v →
       plotLine st l = .ok (st', c) →
       st'.times = st.times ++ lineTimes t0v l) ∧
    (∀ t t0v : TOD, t.toUs - t0v.toUs < 0 ↔ t.toUs < t0v.toUs) := by
  refine ⟨?_, ?_, fun t t0v => sub_neg⟩
  · intro st t0v h h0
    have := parseRun_ok_times_fromNone lines {} st t0v rfl h h0
    simpa using this
  · intro st t0v l st' c h0 h
    exact (plotLine_ok_anchored h h0).2.2.2

/-- C4 witness: a log crossing midnight — anchor `23:59:59.900000`, event
`00:00:00.100000` — records the negative elapsed value `-86399800000` µs
(`-86399.8` s), with no rollover correction. -/
theorem C4_witness :
    ({ times := [-86399800000], totals := [7],
       t0 := some ⟨23, 59, 59, 900000⟩, cum := 7 } : LogState).times =
      dataTimesFrom ⟨23, 59, 59, 900000⟩ exMidLines ∧
    ((⟨0, 0, 0, 100000⟩ : TOD).toUs - (⟨23, 59, 59, 900000⟩ : TOD).toUs < 0 ↔
      (⟨0, 0, 0, 100000⟩ : TOD).toUs < (⟨23, 59, 59, 900000⟩ : TOD).toUs) :=
  ⟨(C4_elapsed exMidLines).1 _ _ (by rfl) rfl,
   (C4_elapsed exMidLines).2.2 _ _⟩

/-- C5: the collection loop runs the collector exactly once per run index,
sequentially in ascending order `1..n` (the index list is `range' 1 n`),
each call receiving the derived path `traces/{file}_{i}.log`; when all exit
statuses are zero it returns the paths in order, and a first non-zero exit
status stops the loop immediately — the collector is invoked exactly for
the indices up to and including the failing one, with no retry — and the
whole run fails. -/
theorem C5_run_loop (ec : String → String → Int) (file : String) (n : Nat) :
    mainIndices n = List.range' 1 n ∧
    ((∀ i ∈ mainIndices n, ec file (logPath file i) = 0) →
       runTraces ec file (mainIndices n) =
         ((mainIndices n).map (fun i => (file, logPath file i)),
          .ok ((mainIndices n).map (logPath file)))) ∧
    (∀ as j bs, mainIndices n = as ++ j :: bs →
       (∀ i ∈ as, ec file (logPath file i) = 0) →
       ec file (logPath file j) ≠ 0 →
       runTraces ec file (mainIndices n) =
         ((as ++ [j]).map (fun i => (file, logPath file i)), .error ())) := by
  refine ⟨mainIndices_eq_range' n, fun h => runTraces_allOk ec file _ h, ?_⟩
  intro as j bs hsplit hok hj
  rw [hsplit]
  exact runTraces_firstFail ec file as j bs hok hj

/-- C5 witness: three requested runs of `1M.bin` with a collector that
fails on the second run — exactly runs 1 and 2 are invoked, in order, and
the whole collection errors. -/
theorem C5_witness :
    runTraces (fun _ p => if p = logPath "1M.bin" 2 then 1 else 0) "1M.bin"
        (mainIndices 3) =
      ([("1M.bin", logPath "1M.bin" 1), ("1M.bin", logPath "1M.bin" 2)],
       .error ()) :=
  (C5_run_loop (fun _ p => if p = logPath "1M.bin" 2 then 1 else 0)
      "1M.bin" 3).2.2 [1] 2 [3] (by rfl) (by decide) (by decide)

/-- C6: the multi-run tool validates its inputs before ever reaching the
collection loop: fewer than two real arguments is a usage error; a
non-integer or non-positive `run_count` exits with the `badN` message; a
file identifier outside the allow-list `{1K.bin, 1M.bin, 1G.bin}` exits
with the `badFile` message; a missing `trace.sh` exits with the `noTraceSh`
message — each a distinct non-zero `sys.exit` outcome carrying no collector
invocation — and the loop is reached only when all three checks pass. -/
theorem C6_validation (ec : String → String → Int) (tse : Bool)
    (prog file_name nstr : String) (rest : List String) :
    (∀ argv : List String, argv.length < 3 → mainM ec tse argv = .usageError) ∧
    (pyInt nstr = none →
       mainM ec tse (prog :: file_name :: nstr :: rest) = .badN) ∧
    (∀ n, pyInt nstr = some n → n ≤ 0 →
       mainM ec tse (prog :: file_name :: nstr :: rest) = .badN) ∧
    (∀ n, pyInt nstr = some n → 0 < n →
       ALLOWED_FILES.contains file_name = false →
       mainM ec tse (prog :: file_name :: nstr :: rest) = .badFile) ∧
    (∀ n, pyInt nstr = some n → 0 < n →
       ALLOWED_FILES.contains file_name = true → tse = false →
       mainM ec tse (prog :: file_name :: nstr :: rest) = .noTraceSh) ∧
    (∀ calls res,
       mainM ec tse (prog :: file_name :: nstr :: rest) = .ran calls res →
       (∃ n, pyInt nstr = some n ∧ 0 < n) ∧
       ALLOWED_FILES.contains file_name = true ∧ tse = true) := by
  refine ⟨?_, ?_, ?_, ?_, ?_, ?_⟩
  · intro argv hlen
    match argv with
    | [] => rfl
    | [_] => rfl
    | [_, _] => rfl
    | _ :: _ :: _ :: _ => exact absurd hlen (by simp)
  · intro h; simp [mainM, h]
  · intro n h hle; simp [mainM, h, hle]
  · intro n h hpos hfile
    simp only [mainM, h]
    rw [if_neg (Int.not_le.mpr hpos), hfile]
    rfl
  · intro n h hpos hfile htse
    simp only [mainM, h]
    rw [if_neg (Int.not_le.mpr hpos), hfile, htse]
    rfl
  · intro calls res h
    simp only [mainM] at h
    cases hpy : pyInt nstr with
    | none => simp only [hpy] at h; exact absurd h (by simp)
    | some n =>
        simp only [hpy] at h
        by_cases hle : n ≤ 0
        · rw [if_pos hle] at h; exact absurd h (by simp)
        · rw [if_neg hle] at h
          cases hfile : ALLOWED_FILES.contains file_name with
          | false => rw [hfile] at h; simp at h
          | true =>
              cases htse : tse with
              | false => rw [hfile, htse] at h; simp at h
              | true => exact ⟨⟨n, rfl, Int.not_le.mp hle⟩, rfl, rfl⟩

/-- C6 witness: invoking the tool with the disallowed identifier `2M.bin`
exits with the allow-list message; the result carries no collector call. -/
theorem C6_witness :
    mainM (fun _ _ => 0) true ["run_traces.py", "2M.bin", "3"] = .badFile :=
  (C6_validation (fun _ _ => 0) true "run_traces.py" "2M.bin" "3" []).2.2.2.1
    3 (by rfl) (by decide) (by rfl)

/-- C7: an input with no line matching the anchor timestamp pattern
(including the empty input) leaves `t0` unset and yields an empty series —
length 0, nothing accumulated — in both parsers, and the empty series
satisfies the equal-length condition under which `plt.step` renders (an
empty chart) without raising. -/
theorem C7_no_anchor (lines : List (List Char))
    (h : ∀ l ∈ lines, matchTS l = none) :
    parseLog lines =
      .ok { times := [], totals := [], t0 := none, cum := 0 } ∧
    runPlot lines =
      .ok { times := [], totals := [], t0 := none, total_bytes := 0 } ∧
    stepOK [] [] = true := by
  refine ⟨parseRun_noTS lines {} h, ?_, rfl⟩
  rw [runPlot, plotRunB_noTS lines {} h]
  rfl

/-- C7 witness: a log of a junk line and an empty line parses to the empty
series in both variants. -/
theorem C7_witness :
    parseLog [exInfoLine, ([] : List Char)] =
      .ok { times := [], totals := [], t0 := none, cum := 0 } ∧
    runPlot [exInfoLine, ([] : List Char)] =
      .ok { times := [], totals := [], t0 := none, total_bytes := 0 } ∧
    stepOK [] [] = true :=
  C7_no_anchor [exInfoLine, ([] : List Char)] (by decide)


theorem utf8_ascii : ∀ bs : List Nat, (∀ b ∈ bs, b ≤ 0x7F) →
    utf8Strict bs = some bs ∧ utf8Lenient bs = bs := by
  intro bs
  induction bs with
  | nil => intro _; exact ⟨by rw [utf8Strict], by rw [utf8Lenient]⟩
  | cons b bs ih =>
      intro h
      have hb : b ≤ 0x7F := h b (List.mem_cons_self b bs)
      have hdo : decodeOne b bs = some (b, 0) := by
        simp [decodeOne, hb]
      obtain ⟨ih1, ih2⟩ := ih (fun b' hm => h b' (List.mem_cons_of_mem b hm))
      constructor
      · rw [utf8Strict]
        simp [hdo, ih1]
      · rw [utf8Lenient]
        simp [hdo, ih2]

theorem utf8_ascii_invalid_tail : ∀ bs : List Nat,
    (∀ b ∈ bs, b ≤ 0x7F) →
    utf8Strict (bs ++ [255]) = none ∧ utf8Lenient (bs ++ [255]) = bs := by
  intro bs
  induction bs with
  | nil =>
      intro _
      have hdo : decodeOne 255 [] = none := by rfl
      constructor
      · rw [List.nil_append, utf8Strict]
        simp [hdo]
      · rw [List.nil_append, utf8Lenient]
        simp [hdo]
        rw [utf8Lenient]
  | cons b bs ih =>
      intro h
      have hb : b ≤ 0x7F := h b (List.mem_cons_self b bs)
      have hdo : decodeOne b (bs ++ [255]) = some (b, 0) := by
        simp [decodeOne, hb]
      obtain ⟨ih1, ih2⟩ := ih (fun b' hm => h b' (List.mem_cons_of_mem b hm))
      constructor
      · rw [List.cons_append, utf8Strict]
        simp [hdo, ih1]
      · rw [List.cons_append, utf8Lenient]
        simp [hdo, ih2]

/-- C8: the two variants treat invalid bytes asymmetrically.  Lenient
decoding agrees with strict decoding on every cleanly decodable input; any
input strict decoding rejects makes the single-trace pipeline of `plot.py`
fail with a decode error; and on a concrete log holding one valid data line
followed by the invalid byte `0xFF`, `plot.py` raises while the multi-run
pipeline ignores the byte and still parses the data line. -/
theorem C8_decoding :
    (∀ bs cps, utf8Strict bs = some cps → utf8Lenient bs = cps) ∧
    (∀ bs, utf8Strict bs = none → plotFromBytes bs = .error .decode) ∧
    plotFromBytes exBadBytes = .error .decode ∧
    parseLogFromBytes exBadBytes =
      .ok { times := [0], totals := [1024],
            t0 := some ⟨0, 0, 2, 500000⟩, cum := 1024 } := by
  have hinv := utf8_ascii_invalid_tail
    (asciiBytes "00:00:02.500000 <= Recv data, 1024 bytes") (by decide)
  refine ⟨fun bs cps h => utf8Lenient_of_strict h, ?_, ?_, ?_⟩
  · intro bs h
    rw [plotFromBytes, h]
  · rw [plotFromBytes]
    unfold exBadBytes
    rw [hinv.1]
  · rw [parseLogFromBytes]
    unfold exBadBytes
    rw [hinv.2]
    rfl

/-- C8 witness: lenient decoding of a clean ASCII byte string equals its
strict decoding. -/
theorem C8_witness :
    utf8Lenient (asciiBytes "ab") = [97, 98] :=
  C8_decoding.1 (asciiBytes "ab") [97, 98]
    ((utf8_ascii (asciiBytes "ab") (by decide)).1)

/-- C9: a line matching the data-receipt pattern whose captured time fields
are not a valid time of day (e.g. hour 24) makes `strptime` fail, and the
failure propagates: from any state, the loop body of either variant returns
the `strptime` error — the line is never silently skipped — and a run whose
remaining input starts with such a line terminates with that error. -/
theorem C9_fail_fast (l : List Char) (t : TOD) (b : Nat)
    (hd : matchData l = some (t, b))
    (hv : (t.h ≤ 23 && t.m ≤ 59 && t.s ≤ 59) = false) :
    (∀ st : LogState, parseLine st l = .error .strptime) ∧
    (∀ st : PlotState, plotLine st l = .error .strptime) ∧
    (∀ pre ls st0 st1, parseRun st0 pre = .ok st1 →
       parseRun st0 (pre ++ l :: ls) = .error .strptime) ∧
    (∀ pre ls st0 st1, plotRunB st0 pre = .ok (st1, true) →
       plotRunB st0 (pre ++ l :: ls) = .error .strptime) := by
  obtain ⟨r, hts⟩ := matchData_ts hd
  have hparse : ∀ st : LogState, parseLine st l = .error .strptime := by
    intro st
    cases h0 : st.t0 with
    | some t0v => exact parseLine_some_data_bad h0 hd hv
    | none => exact parseLine_none_ts_bad h0 hts hv
  have hplot : ∀ st : PlotState, plotLine st l = .error .strptime := by
    intro st
    cases h0 : st.t0 with
    | some t0v => exact plotLine_some_data_bad h0 hd hv
    | none => exact plotLine_none_ts_bad h0 hts hv
  refine ⟨hparse, hplot, ?_, ?_⟩
  · intro pre ls st0 st1 h
    rw [parseRun_append pre (l :: ls) st0, h]
    show parseRun st1 (l :: ls) = Except.error Err.strptime
    rw [parseRun, hparse st1]
  · intro pre ls st0 st1 h
    rw [plotRunB_append pre (l :: ls) st0, h]
    show plotRunB st1 (l :: ls) = Except.error Err.strptime
    rw [plotRunB, hplot st1]

/-- C9 witness: the malformed hour-24 data line makes both loop bodies fail
with the `strptime` error from the initial state. -/
theorem C9_witness :
    parseLine {} exBadLine = .error .strptime ∧
    plotLine {} exBadLine = .error .strptime :=
  ⟨(C9_fail_fast exBadLine ⟨24, 0, 0, 0⟩ 5 (by rfl) (by rfl)).1 {},
   (C9_fail_fast exBadLine ⟨24, 0, 0, 0⟩ 5 (by rfl) (by rfl)).2.1 {}⟩
